import Mathlib

/-!
Verification development for the BitcoinBrain document-ingestion pipeline.

The definitions below are a shallow embedding of the Python sources:
  - `src/services/chunking_service.py`  (token-bounded chunking)
  - `src/services/pdf_service.py`       (extraction, assembly, provenance tables)
  - `src/services/embedding_service.py` (batched embeddings with retry)
  - `src/utils/text_processing.py`      (text normalisation, header detection)

External collaborators are modelled explicitly:
  - the tiktoken tokenizer is an external library; it is modelled by the
    abstract `Tokenizer` structure, instantiated in the theorems by the
    character-level tokenizer `charTok` (one token per character);
  - pdfplumber is modelled by an abstract `parse` function passed as a
    parameter (page text plus a table count per page);
  - the OpenAI embeddings endpoint is modelled by an oracle mapping a batch
    of texts and an attempt number to a success or failure outcome.

Python regular-expression operations (`re.split`, `re.sub`, `re.match`) are
translated into deterministic character-list scans implementing the
leftmost, greedy-with-backtracking semantics of each concrete pattern used
by the source.  Python's `str.strip` is `pyStrip` (ASCII whitespace; the
sources only ever strip ASCII text).  `\w` is modelled as ASCII
`[A-Za-z0-9_]`.
-/

/-- Python `str.strip` / regex `\s` whitespace set (ASCII part):
space, tab, newline, carriage return, vertical tab, form feed. -/
def isPySpace (c : Char) : Bool :=
  c.toNat = 32 || c.toNat = 9 || c.toNat = 10 || c.toNat = 13 ||
  c.toNat = 11 || c.toNat = 12

/-- `str.strip` on a character list. -/
def pyStripList (l : List Char) : List Char :=
  ((l.dropWhile isPySpace).reverse.dropWhile isPySpace).reverse

/-- Python `str.strip()`. -/
def pyStrip (s : String) : String := String.mk (pyStripList s.data)

/-- Abstract tokenizer interface standing for the external tiktoken
encoding object (`self.encoding` in `ChunkingService`). -/
structure Tokenizer (τ : Type) where
  encode : String → List τ
  decode : List τ → String

/-- The character-level tokenizer: one token per character.  This is the
concrete model of tiktoken used to settle the chunking claims. -/
def charTok : Tokenizer Char := ⟨String.data, String.mk⟩

/-- `ChunkingService.count_tokens`: `0` for the empty (falsy) string, else
the length of the encoding. -/
def count_tokens (tok : Tokenizer τ) (text : String) : Nat :=
  if text = "" then 0 else (tok.encode text).length

/-- `settings.MAX_CHUNK_TOKENS` (src/config.py). -/
def MAX_CHUNK_TOKENS : Nat := 800

/-- `settings.CHUNK_OVERLAP_TOKENS` (src/config.py). -/
def CHUNK_OVERLAP_TOKENS : Nat := 100

/-- An entry of `page_markers` as built in `process_pdf_for_chunks`. -/
structure PageMarker where
  page : Nat
  start_pos : Nat
  end_pos : Nat
deriving Repr, DecidableEq

/-- An entry of `section_markers` as built in `process_pdf_for_chunks`. -/
structure SectionMarker where
  header : String
  page : Nat
  position : Nat
deriving Repr, DecidableEq

/-- The `document_metadata` dictionary (fields read via `.get(key, "")`). -/
structure DocMeta where
  document_id : String := ""
  title : String := ""
  author : String := ""
  kind : String := ""
  tags : List String := []
  published_date : String := ""
deriving Repr, DecidableEq

/-- The chunk dictionary produced by `_create_chunk_metadata`.  The Python
key `"section"` is the field `sectionName` (`section` is a Lean keyword). -/
structure ChunkMeta where
  document_id : String
  text : String
  token_count : Nat
  char_start : Nat
  char_end : Nat
  page : Option Nat
  sectionName : Option String
  chunk_index : Nat
  document_title : String
  document_author : String
  document_kind : String
  document_tags : List String
  published_date : String
deriving Repr, DecidableEq

/-- Index of the last newline in a character list (`0` if none; only used
when at least one newline is present). -/
def lastNewlineIdx (l : List Char) : Nat :=
  l.enum.foldl (fun acc p => if p.2 = '\n' then p.1 else acc) 0

/-- Scanner for `re.split(r'\n\s*\n', text)`.  At a newline, the maximal
whitespace run is a separator iff it contains a second newline; the match
extends to the last newline of the run (greedy `\s*` backtracking so that
the final `\n` of the pattern matches).  The scan is structurally recursive
on an explicit fuel so that the kernel can evaluate it; every step consumes
at least one character, so fuel `l.length + 1` is never exhausted. -/
def blankSplitAux : Nat → List Char → List Char → List (List Char)
  | _, cur, [] => [cur.reverse]
  | 0, cur, rest => [cur.reverse ++ rest]
  | fuel + 1, cur, c :: rest =>
    if c = '\n' then
      let run : List Char := c :: rest.takeWhile isPySpace
      if 2 ≤ run.count '\n' then
        cur.reverse :: blankSplitAux fuel [] (rest.drop (lastNewlineIdx run))
      else
        blankSplitAux fuel (c :: cur) rest
    else
      blankSplitAux fuel (c :: cur) rest

/-- `re.split(r'\n\s*\n', text)` — the paragraph split of
`_split_into_paragraphs`. -/
def split_on_blank_lines (s : String) : List String :=
  (blankSplitAux (s.data.length + 1) [] s.data).map String.mk

/-- Terminal sentence punctuation of the lookbehind `(?<=[.!?])`. -/
def isSentEnd (c : Char) : Bool := c = '.' || c = '!' || c = '?'

/-- Whether the lookbehind `(?<=[.!?])` succeeds for a given previous
character. -/
def prevIsSentEnd : Option Char → Bool
  | some p => isSentEnd p
  | none => false

/-- Scanner for `re.split(r'(?<=[.!?])\s+', para)`: a maximal whitespace
run directly preceded by `.`, `!` or `?` is a separator.  Fuel-based for
kernel evaluability; every step consumes at least one character. -/
def sentSplitAux : Nat → List Char → Option Char → List Char → List (List Char)
  | _, cur, _, [] => [cur.reverse]
  | 0, cur, _, rest => [cur.reverse ++ rest]
  | fuel + 1, cur, prev, c :: rest =>
    if isPySpace c && prevIsSentEnd prev then
      cur.reverse :: sentSplitAux fuel [] (some c) (rest.dropWhile isPySpace)
    else
      sentSplitAux fuel (c :: cur) (some c) rest

/-- `re.split(r'(?<=[.!?])\s+', para)`. -/
def split_sentences (s : String) : List String :=
  (sentSplitAux (s.data.length + 1) [] none s.data).map String.mk

/-- The greedy sentence re-merge loop inside `_split_into_paragraphs`
(accumulates sentences into sub-paragraphs of at most `max_tokens // 2`
tokens, joining with a single space). -/
def mergeSentAux (tok : Tokenizer τ) (maxTokens : Nat) (cur : String) :
    List String → List String
  | [] => if cur ≠ "" then [cur] else []
  | s :: ss =>
    if count_tokens tok (cur ++ s) > maxTokens / 2 then
      if cur ≠ "" then cur :: mergeSentAux tok maxTokens s ss
      else s :: mergeSentAux tok maxTokens "" ss
    else
      mergeSentAux tok maxTokens (if cur = "" then s else cur ++ " " ++ s) ss

/-- `ChunkingService._split_into_paragraphs`. -/
def split_into_paragraphs (tok : Tokenizer τ) (maxTokens : Nat) (text : String) :
    List String :=
  let paragraphs := split_on_blank_lines text
  let refined := paragraphs.flatMap (fun para =>
    if count_tokens tok para > maxTokens / 2 then
      mergeSentAux tok maxTokens "" (split_sentences para)
    else [para])
  (refined.map pyStrip).filter (fun p => p ≠ "")

/-- `ChunkingService._get_overlap_text`.  Note Python's `tokens[-0:]` is the
whole list, hence the special case for a zero overlap budget. -/
def get_overlap_text (tok : Tokenizer τ) (overlapTokens : Nat) (text : String) :
    String :=
  if text = "" then ""
  else
    let tokens := tok.encode text
    if tokens.length ≤ overlapTokens then text
    else if overlapTokens = 0 then tok.decode tokens
    else tok.decode (tokens.drop (tokens.length - overlapTokens))

/-- `ChunkingService._find_page_for_position`: first marker whose inclusive
`[start_pos, end_pos]` range contains the position. -/
def find_page_for_position (position : Nat) : List PageMarker → Option Nat
  | [] => none
  | m :: ms =>
    if m.start_pos ≤ position ∧ position ≤ m.end_pos then some m.page
    else find_page_for_position position ms

/-- Loop of `_find_section_for_position` (`break` at the first marker whose
position exceeds the query). -/
def find_section_aux (position : Nat) (acc : Option String) :
    List SectionMarker → Option String
  | [] => acc
  | m :: ms =>
    if m.position ≤ position then find_section_aux position (some m.header) ms
    else acc

/-- `ChunkingService._find_section_for_position`. -/
def find_section_for_position (position : Nat) (markers : List SectionMarker) :
    Option String :=
  find_section_aux position none markers

/-- `ChunkingService._create_chunk_metadata`.  The stored `text` is the
stripped text while `token_count` is computed on the unstripped argument,
exactly as in the source. -/
def create_chunk_metadata (tok : Tokenizer τ) (text docId : String)
    (startPos endPos : Nat) (pageMarkers : List PageMarker)
    (sectionMarkers : List SectionMarker) (meta : DocMeta) : ChunkMeta :=
  { document_id := docId
    text := pyStrip text
    token_count := count_tokens tok text
    char_start := startPos
    char_end := endPos
    page := find_page_for_position startPos pageMarkers
    sectionName := find_section_for_position startPos sectionMarkers
    chunk_index := 0
    document_title := meta.title
    document_author := meta.author
    document_kind := meta.kind
    document_tags := meta.tags
    published_date := meta.published_date }

/-- The `while chunk_start < len(tokens)` loop of
`ChunkingService._chunk_large_text`, with explicit fuel.  `none` means the
fuel was exhausted before the loop finished; with `overlap < max` the loop
provably terminates within `tokens.length + 1` iterations. -/
def chunk_large_loop (tok : Tokenizer τ) (maxTokens overlapTokens : Nat)
    (tokens : List τ) (docId : String) (pageMarkers : List PageMarker)
    (sectionMarkers : List SectionMarker) (meta : DocMeta) :
    Nat → Nat → Nat → Option (List ChunkMeta)
  | 0, _, _ => none
  | fuel+1, chunkStart, startPos =>
    if chunkStart < tokens.length then
      let chunkEnd := min (chunkStart + maxTokens) tokens.length
      let chunkText := tok.decode ((tokens.drop chunkStart).take (chunkEnd - chunkStart))
      let chunk := create_chunk_metadata tok chunkText docId startPos
        (startPos + chunkText.length) pageMarkers sectionMarkers meta
      let nextStart := if chunkEnd < tokens.length then chunkEnd - overlapTokens else chunkEnd
      match chunk_large_loop tok maxTokens overlapTokens tokens docId pageMarkers
          sectionMarkers meta fuel nextStart (startPos + chunkText.length) with
      | none => none
      | some rest => some (chunk :: rest)
    else some []

/-- `ChunkingService._chunk_large_text` (token-slice fallback for a
paragraph exceeding the budget). -/
def chunk_large_text (tok : Tokenizer τ) (maxTokens overlapTokens : Nat)
    (text docId : String) (startPos : Nat) (pageMarkers : List PageMarker)
    (sectionMarkers : List SectionMarker) (meta : DocMeta) : List ChunkMeta :=
  let tokens := tok.encode text
  (chunk_large_loop tok maxTokens overlapTokens tokens docId pageMarkers
    sectionMarkers meta (tokens.length + 1) 0 startPos).getD []

/-- The `for paragraph in paragraphs` loop of `ChunkingService.create_chunks`,
including the final flush of a non-empty trailing chunk.  State:
accumulated chunks, current chunk text, its tracked token count, and
`chunk_start_pos`. -/
def create_chunks_loop (tok : Tokenizer τ) (maxTokens overlapTokens : Nat)
    (docId : String) (pageMarkers : List PageMarker)
    (sectionMarkers : List SectionMarker) (meta : DocMeta) :
    List String → List ChunkMeta → String → Nat → Nat → List ChunkMeta
  | [], chunks, cur, _, startPos =>
    if pyStrip cur ≠ "" then
      chunks ++ [create_chunk_metadata tok cur docId startPos
        (startPos + cur.length) pageMarkers sectionMarkers meta]
    else chunks
  | para :: rest, chunks, cur, curTok, startPos =>
    let pTok := count_tokens tok para
    if pTok > maxTokens then
      let chunks1 :=
        if pyStrip cur ≠ "" then
          chunks ++ [create_chunk_metadata tok cur docId startPos
            (startPos + cur.length) pageMarkers sectionMarkers meta]
        else chunks
      let large := chunk_large_text tok maxTokens overlapTokens para docId
        (startPos + cur.length) pageMarkers sectionMarkers meta
      create_chunks_loop tok maxTokens overlapTokens docId pageMarkers
        sectionMarkers meta rest (chunks1 ++ large) "" 0 (startPos + para.length)
    else if curTok + pTok > maxTokens then
      let chunks1 :=
        if pyStrip cur ≠ "" then
          chunks ++ [create_chunk_metadata tok cur docId startPos
            (startPos + cur.length) pageMarkers sectionMarkers meta]
        else chunks
      let overlap := get_overlap_text tok overlapTokens cur
      let cur1 := overlap ++ para
      create_chunks_loop tok maxTokens overlapTokens docId pageMarkers
        sectionMarkers meta rest chunks1 cur1 (count_tokens tok cur1)
        (startPos + cur1.length - overlap.length)
    else
      create_chunks_loop tok maxTokens overlapTokens docId pageMarkers
        sectionMarkers meta rest chunks (cur ++ para) (curTok + pTok) startPos

/-- `ChunkingService.create_chunks`. -/
def create_chunks (tok : Tokenizer τ) (maxTokens overlapTokens : Nat)
    (text docId : String) (pageMarkers : List PageMarker)
    (sectionMarkers : List SectionMarker) (meta : DocMeta) : List ChunkMeta :=
  if pyStrip text = "" then []
  else
    create_chunks_loop tok maxTokens overlapTokens docId pageMarkers
      sectionMarkers meta (split_into_paragraphs tok maxTokens text) [] "" 0 0

/-! ## Text normalisation (`src/utils/text_processing.py`) -/

/-- Modelled from the spec: `clean_text` first "unescapes encoded entities"
via Python's stdlib `html.unescape`, an external library outside this
repository.  It is modelled as the identity, with which it agrees on any
text containing no ampersand entity references (all texts appearing in the
theorems below). -/
def htmlUnescape (l : List Char) : List Char := l

/-- Generic scanner for `re.sub` with a deterministic single-pattern
matcher: `step` returns the replacement and the remainder after a match
starting at the current position.  Matches are leftmost and
non-overlapping; every match consumes at least one character, so fuel
`input.length + 1` is never exhausted. -/
def scanSub (step : List Char → Option (List Char × List Char)) :
    Nat → List Char → List Char
  | _, [] => []
  | 0, l => l
  | fuel + 1, c :: rest =>
    match step (c :: rest) with
    | some (repl, remainder) => repl ++ scanSub step fuel remainder
    | none => c :: scanSub step fuel rest

/-- Matcher for `re.sub(r'\n\s*\n\s*\n+', '\n\n', text)`: a maximal
whitespace run starting with a newline and containing at least three
newlines matches up to its last newline. -/
def matchThreeNl : List Char → Option (List Char × List Char)
  | '\n' :: rest =>
    let run : List Char := '\n' :: rest.takeWhile isPySpace
    if 3 ≤ run.count '\n' then
      some (['\n', '\n'], rest.drop (lastNewlineIdx run))
    else none
  | _ => none

/-- Matcher for `re.sub(r'[ \t]+', ' ', text)`. -/
def matchSpaceTabRun (l : List Char) : Option (List Char × List Char) :=
  match l with
  | c :: _ =>
    if c = ' ' || c = '\t' then
      let run := l.takeWhile (fun d => d = ' ' || d = '\t')
      some ([' '], l.drop run.length)
    else none
  | [] => none

/-- Matcher for `re.sub(r' +\n', '\n', text)`. -/
def matchSpacesNl (l : List Char) : Option (List Char × List Char) :=
  match l with
  | ' ' :: _ =>
    let run := l.takeWhile (fun d => d = ' ')
    match l.drop run.length with
    | '\n' :: rest2 => some (['\n'], rest2)
    | _ => none
  | _ => none

/-- Matcher for `re.sub(r'\n +', '\n', text)`. -/
def matchNlSpaces : List Char → Option (List Char × List Char)
  | '\n' :: ' ' :: rest =>
    some (['\n'], rest.dropWhile (fun d => d = ' '))
  | _ => none

/-- ASCII model of the regex class `\w`. -/
def isWordChar (c : Char) : Bool := c.isAlpha || c.isDigit || c = '_'

/-- Matcher for `re.sub(r'(\w)- *\n *(\w)', r'\1\2', text)` (hyphenated
word repaired across a line break). -/
def matchHyphen (l : List Char) : Option (List Char × List Char) :=
  match l with
  | c1 :: '-' :: rest =>
    if isWordChar c1 then
      match (rest.dropWhile (fun d => d = ' ')) with
      | '\n' :: rest2 =>
        match rest2.dropWhile (fun d => d = ' ') with
        | c2 :: rest3 => if isWordChar c2 then some ([c1, c2], rest3) else none
        | [] => none
      | _ => none
    else none
  | _ => none

/-- Uppercase ASCII letter (`[A-Z]`). -/
def isUpperAZ (c : Char) : Bool := 65 ≤ c.toNat && c.toNat ≤ 90

/-- Matcher for `re.sub(r'([.!?])\n([A-Z])', r'\1 \2', text)` (sentence
split across a bare newline rejoined). -/
def matchSentBreak : List Char → Option (List Char × List Char)
  | c :: '\n' :: u :: rest =>
    if isSentEnd c && isUpperAZ u then some ([c, ' ', u], rest) else none
  | _ => none

/-- Matcher for `re.sub(r'\n\s*\d+\s*\n', '\n', text)` (standalone page
numbers): newline, whitespace, a digit run, then whitespace that must
contain a newline; the match ends at the last newline of that run. -/
def matchStandaloneNum : List Char → Option (List Char × List Char)
  | '\n' :: rest =>
    let ws1 := rest.takeWhile isPySpace
    let after1 := rest.drop ws1.length
    let digits := after1.takeWhile Char.isDigit
    if digits = [] then none
    else
      let after2 := after1.drop digits.length
      let ws2 := after2.takeWhile isPySpace
      if 1 ≤ ws2.count '\n' then
        some (['\n'], after2.drop (lastNewlineIdx ws2 + 1))
      else none
  | _ => none

/-- Case-insensitive ASCII character comparison. -/
def ciEq (c d : Char) : Bool := c.toLower = d.toLower

/-- Matcher for `re.sub(r'\n\s*Page \d+.*?\n', '\n', text, flags=IGNORECASE)`
("Page N" footer lines): newline, whitespace, `page ` case-insensitively,
a digit run, then lazily anything up to and including the next newline. -/
def matchPageFooter : List Char → Option (List Char × List Char)
  | '\n' :: rest =>
    let after1 := rest.drop (rest.takeWhile isPySpace).length
    match after1 with
    | p :: a :: g :: e :: ' ' :: rest2 =>
      if ciEq p 'p' && ciEq a 'a' && ciEq g 'g' && ciEq e 'e' then
        let digits := rest2.takeWhile Char.isDigit
        if digits = [] then none
        else
          let after2 := rest2.drop digits.length
          match after2.drop (after2.takeWhile (fun d => d ≠ '\n')).length with
          | '\n' :: rest3 => some (['\n'], rest3)
          | _ => none
      else none
    | _ => none
  | _ => none

/-- Code points of the punctuation kept by the final whitelist substitution
`re.sub(r'[^\w\s\-.,!?;:()\[\]{}"/\'%$#@&*+=<>|\\~`]', ' ', text)`. -/
def cleanKeepPunct : List Nat :=
  [45, 46, 44, 33, 63, 59, 58, 40, 41, 91, 93, 123, 125, 34, 47, 39, 37,
   36, 35, 64, 38, 42, 43, 61, 60, 62, 124, 92, 126, 96]

/-- A character surviving the whitelist substitution of `clean_text`. -/
def keepChar (c : Char) : Bool :=
  isWordChar c || isPySpace c || cleanKeepPunct.contains c.toNat

/-- `clean_text` (src/utils/text_processing.py): the normalisation pipeline
applied to each extracted page text. -/
def clean_text (text : String) : String :=
  if text = "" then ""
  else
    let l0 := htmlUnescape text.data
    let l1 := scanSub matchThreeNl (l0.length + 1) l0
    let l2 := scanSub matchSpaceTabRun (l1.length + 1) l1
    let l3 := scanSub matchSpacesNl (l2.length + 1) l2
    let l4 := scanSub matchNlSpaces (l3.length + 1) l3
    let l5 := scanSub matchHyphen (l4.length + 1) l4
    let l6 := scanSub matchSentBreak (l5.length + 1) l5
    let l7 := scanSub matchStandaloneNum (l6.length + 1) l6
    let l8 := scanSub matchPageFooter (l7.length + 1) l7
    let l9 := l8.map (fun c => if keepChar c then c else ' ')
    String.mk (pyStripList l9)

/-- `str.split('\n')` (used by `extract_section_headers`). -/
def splitNl (l : List Char) : List (List Char) :=
  l.foldr
    (fun c acc =>
      if c = '\n' then [] :: acc
      else match acc with
        | h :: t => (c :: h) :: t
        | [] => [[c]])
    [[]]

/-- `[A-Za-z\s]`, the body class of the header patterns. -/
def isHeaderBody (c : Char) : Bool := c.isAlpha || isPySpace c

/-- Pattern `^([A-Z][A-Za-z\s]{5,50})$`: whole line is an uppercase letter
followed by 5 to 50 letters/whitespace. -/
def matchTitleLine (line : List Char) : Option (List Char) :=
  match line with
  | u :: rest =>
    if isUpperAZ u && rest.all isHeaderBody && 5 ≤ rest.length && rest.length ≤ 50 then
      some line
    else none
  | [] => none

/-- Pattern `^\d+\.?\s+([A-Z][A-Za-z\s]{5,50})$` (numbered heading); the
group is the heading after the number. -/
def matchNumberedLine (line : List Char) : Option (List Char) :=
  let digits := line.takeWhile Char.isDigit
  if digits = [] then none
  else
    let after := line.drop digits.length
    let afterDot := match after with
      | '.' :: r => r
      | r => r
    let ws := afterDot.takeWhile isPySpace
    if ws = [] then none
    else matchTitleLine (afterDot.drop ws.length)

/-- Pattern `^([A-Z][A-Za-z\s]{5,50}):` (heading terminated by a colon);
the greedy body run must be followed by the colon. -/
def matchColonLine (line : List Char) : Option (List Char) :=
  match line with
  | u :: rest =>
    if isUpperAZ u then
      let run := rest.takeWhile isHeaderBody
      if 5 ≤ run.length && run.length ≤ 50 then
        match rest.drop run.length with
        | ':' :: _ => some (u :: run)
        | _ => none
      else none
    else none
  | [] => none

/-- Pattern `^\*\*([^*]+)\*\*` (markdown-style bold text). -/
def matchBoldLine (line : List Char) : Option (List Char) :=
  match line with
  | '*' :: '*' :: rest =>
    let run := rest.takeWhile (fun d => d ≠ '*')
    if run = [] then none
    else
      match rest.drop run.length with
      | '*' :: '*' :: _ => some run
      | _ => none
  | _ => none

/-- Pattern `^#{1,6}\s+(.+)$` (markdown heading). -/
def matchHashLine (line : List Char) : Option (List Char) :=
  let hashes := line.takeWhile (fun d => d = '#')
  if 1 ≤ hashes.length && hashes.length ≤ 6 then
    let after := line.drop hashes.length
    let ws := after.takeWhile isPySpace
    if ws = [] then none
    else
      match after.drop ws.length with
      | [] => if 2 ≤ ws.length then some [ws.getLast!] else none
      | rest2 => some rest2
  else none

/-- First matching header pattern's group, in source order. -/
def firstPatternGroup (line : List Char) : Option (List Char) :=
  match matchTitleLine line with
  | some g => some g
  | none =>
    match matchNumberedLine line with
    | some g => some g
    | none =>
      match matchColonLine line with
      | some g => some g
      | none =>
        match matchBoldLine line with
        | some g => some g
        | none => matchHashLine line

/-- The false-positive filter applied to a candidate header:
length bounds, no `page ` leader, not purely numeric, and not a short
alphanumeric code (`^[A-Z]{1,3}\d+`). -/
def headerFilter (h : String) : Bool :=
  let caps := h.data.takeWhile isUpperAZ
  let codeMatch :=
    1 ≤ caps.length && caps.length ≤ 3 &&
      (match h.data.drop caps.length with
       | d :: _ => d.isDigit
       | [] => false)
  5 < h.length && h.length < 80 &&
    !((h.data.map Char.toLower).take 5 = "page ".data) &&
    !(h.data ≠ [] && h.data.all Char.isDigit) &&
    !codeMatch

/-- Order-preserving de-duplication (the `seen` set loop). -/
def dedupAux (seen : List String) : List String → List String
  | [] => []
  | h :: t => if h ∈ seen then dedupAux seen t else h :: dedupAux (h :: seen) t

/-- `extract_section_headers` (src/utils/text_processing.py). -/
def extract_section_headers (text : String) : List String :=
  if text = "" then []
  else
    let lines := (splitNl text.data).map pyStripList
    let headers := lines.flatMap (fun line =>
      if line = [] then []
      else
        match firstPatternGroup line with
        | none => []
        | some g =>
          let header := String.mk (pyStripList g)
          if headerFilter header then [header] else [])
    dedupAux [] headers

/-! ## PDF service (`src/services/pdf_service.py`) -/

/-- One page as produced by the external pdfplumber parser:
`page.extract_text()` (which may return `None`) and the number of tables
from `page.extract_tables()`. -/
structure RawPage where
  text : Option String
  tableCount : Nat
deriving Repr, DecidableEq

/-- The per-page dictionary built by `extract_text_from_pdf`. -/
structure PageData where
  page : Nat
  text : String
  has_tables : Bool
  table_count : Nat
  char_count : Nat
deriving Repr, DecidableEq

/-- `PDFService.extract_text_from_pdf`.  The external pdfplumber library is
modelled by `parse`; `none` stands for `pdfplumber.open` raising (for
example on empty document bytes), which the source re-raises.  Pages whose
cleaned text is empty are dropped. -/
def extract_text_from_pdf (parse : List Nat → Option (List RawPage))
    (pdfBytes : List Nat) : Except String (List PageData) :=
  match parse pdfBytes with
  | none => .error "PDF parsing failed"
  | some raws =>
    .ok ((raws.enum.map (fun p =>
      let cleaned := match p.2.text with
        | some t => clean_text t
        | none => ""
      PageData.mk (p.1 + 1) cleaned (p.2.tableCount > 0) p.2.tableCount
        cleaned.length)).filter (fun pd => pd.text ≠ ""))

/-- The page-boundary marker literal `f"\n\n--- PAGE {page} ---\n\n"`. -/
def page_marker_string (p : Nat) : String :=
  "\n\n--- PAGE " ++ toString p ++ " ---\n\n"

/-- The assembly state of `process_pdf_for_chunks` (lines 74-105):
concatenated text, page offset table, section offset table, table flag. -/
structure Assembly where
  full_text : String
  page_markers : List PageMarker
  section_markers : List SectionMarker
  has_tables : Bool
deriving Repr, DecidableEq

/-- One iteration of the assembly loop: note that the recorded
`end_pos` is `len(full_text)` taken after appending the page marker but
before appending the page text, exactly as in the source. -/
def assemble_step (acc : Assembly) (pd : PageData) : Assembly :=
  let pageStart := acc.full_text.length
  let marker := page_marker_string pd.page
  let ft1 := acc.full_text ++ marker
  { full_text := ft1 ++ pd.text
    page_markers := acc.page_markers ++ [⟨pd.page, pageStart, ft1.length⟩]
    section_markers := acc.section_markers ++
      (extract_section_headers pd.text).map (fun h => ⟨h, pd.page, ft1.length⟩)
    has_tables := acc.has_tables || pd.has_tables }

/-- The assembly loop of `process_pdf_for_chunks`. -/
def assemble_full_text (pages : List PageData) : Assembly :=
  pages.foldl assemble_step ⟨"", [], [], false⟩

/-- The result dictionary of `process_pdf_for_chunks`; keys present only in
some of the source's return paths are `Option`s. -/
structure ProcessResult where
  pages : List PageData
  chunks : List ChunkMeta
  needs_ocr : Bool
  total_pages : Nat
  text_pages : Nat
  has_tables : Bool
  full_text_length : Option Nat
  chunk_count : Option Nat
  error : Option String
deriving Repr, DecidableEq

/-- `PDFService.process_pdf_for_chunks`.  The `try/except` wrapping the
whole body catches any extraction failure and returns the
`needs_ocr` dictionary carrying the error string — no exception is
propagated to the caller. -/
def process_pdf_for_chunks (parse : List Nat → Option (List RawPage))
    (pdfBytes : List Nat) (meta : DocMeta) : ProcessResult :=
  match extract_text_from_pdf parse pdfBytes with
  | .error e => ⟨[], [], true, 0, 0, false, none, none, some e⟩
  | .ok [] => ⟨[], [], true, 0, 0, false, none, none, none⟩
  | .ok (p :: ps) =>
    let pages := p :: ps
    let asm := assemble_full_text pages
    let chunks := create_chunks charTok MAX_CHUNK_TOKENS CHUNK_OVERLAP_TOKENS
      asm.full_text meta.document_id asm.page_markers asm.section_markers meta
    ⟨pages, chunks, false, pages.length,
     (pages.filter (fun pd => pd.char_count > 50)).length, asm.has_tables,
     some asm.full_text.length, some chunks.length, none⟩

/-! ## Embedding service (`src/services/embedding_service.py`) -/

/-- Embedding vectors (`List[float]`); claims only ever test emptiness. -/
abbrev Vec := List Float

/-- The fixed fields of `EmbeddingService.__init__`. -/
structure EmbCfg where
  max_batch_size : Nat := 100
  max_retries : Nat := 3

/-- The external OpenAI embeddings endpoint, modelled as an oracle from the
batch of texts and the attempt number to either the returned vectors or a
raised exception. -/
abbrev EmbedApi := List String → Nat → Except String (List Vec)

/-- The `for attempt in range(self.max_retries)` loop of
`_generate_batch_with_retry`: `rem + 1` attempts remain, the current one
numbered `attempt`.  On the final attempt's failure (and when
`max_retries = 0`, so the loop body never runs) the batch resolves to one
empty vector per input; backoff sleeps are irrelevant to the value. -/
def generate_batch_with_retry_go (api : EmbedApi) (texts : List String) :
    Nat → Nat → List Vec
  | _, 0 => List.replicate texts.length []
  | attempt, rem + 1 =>
    match api texts attempt with
    | .ok embs => embs
    | .error _ =>
      if rem = 0 then List.replicate texts.length []
      else generate_batch_with_retry_go api texts (attempt + 1) rem

/-- `EmbeddingService._generate_batch_with_retry`. -/
def generate_batch_with_retry (api : EmbedApi) (cfg : EmbCfg)
    (texts : List String) : List Vec :=
  generate_batch_with_retry_go api texts 0 cfg.max_retries

/-- `range(0, len(l), n)` slicing, fuel-based for kernel evaluability
(`n = 0` would raise in Python; it is modelled as no batches). -/
def chunksOfAux (n : Nat) : Nat → List α → List (List α)
  | _, [] => []
  | 0, l => [l]
  | fuel + 1, l => l.take n :: chunksOfAux n fuel (l.drop n)

/-- Split a list into consecutive slices of size `n`. -/
def chunksOf (n : Nat) (l : List α) : List (List α) :=
  if n = 0 then [] else chunksOfAux n l.length l

/-- The `filtered_data` list of `generate_embeddings_batch`: indexed texts
whose stripped text is non-empty. -/
def filtered_texts (texts : List String) : List (Nat × String) :=
  texts.enum.filter (fun p => pyStrip p.2 ≠ "")

/-- The successive batches (of indexed texts) submitted to the embedding
API by `generate_embeddings_batch`. -/
def text_batches (cfg : EmbCfg) (texts : List String) :
    List (List (Nat × String)) :=
  chunksOf cfg.max_batch_size (filtered_texts texts)

/-- Processing of one batch: call the API with retry, then write each
returned vector back to its original index (`embeddings_result[i] = e`).
`zip` mirrors Python's `enumerate(batch_embeddings)` indexing into
`batch_data` whenever the API honours its contract of returning at most
one vector per input. -/
def apply_batch (api : EmbedApi) (cfg : EmbCfg) (res : List Vec)
    (batch : List (Nat × String)) : List Vec :=
  let embs := generate_batch_with_retry api cfg (batch.map (fun p => p.2))
  (batch.zip embs).foldl (fun r pe => r.set pe.1.1 pe.2) res

/-- `EmbeddingService.generate_embeddings_batch`. -/
def generate_embeddings_batch (api : EmbedApi) (cfg : EmbCfg)
    (texts : List String) : List Vec :=
  if texts = [] then []
  else if filtered_texts texts = [] then texts.map (fun _ => [])
  else (text_batches cfg texts).foldl (apply_batch api cfg)
    (texts.map (fun _ => []))

/-- An enriched chunk dictionary: `chunk.copy()` plus the two added keys
`embedding` and `has_embedding`. -/
structure EnrichedChunk where
  base : ChunkMeta
  embedding : Vec
  has_embedding : Bool

/-- `EmbeddingService.generate_embeddings_for_chunks`.  `embeddings[i]` is
always in range because `generate_embeddings_batch` returns one vector per
input (proved below); `getD` makes the lookup total. -/
def generate_embeddings_for_chunks (api : EmbedApi) (cfg : EmbCfg)
    (chunks : List ChunkMeta) : List EnrichedChunk :=
  if chunks = [] then []
  else
    let embeddings := generate_embeddings_batch api cfg
      (chunks.map (fun c => c.text))
    chunks.enum.map (fun p =>
      ⟨p.2, embeddings.getD p.1 [], !(embeddings.getD p.1 []).isEmpty⟩)

/-! ## Helper lemmas -/

theorem dropWhile_length_le (p : α → Bool) (l : List α) :
    (l.dropWhile p).length ≤ l.length := by
  induction l with
  | nil => simp [List.dropWhile]
  | cons a l ih =>
    by_cases h : p a
    · simp only [List.dropWhile_cons_of_pos h, List.length_cons]; omega
    · simp [List.dropWhile_cons_of_neg h]

theorem count_tokens_charTok (s : String) :
    count_tokens charTok s = s.data.length := by
  by_cases h : s = ""
  · subst h; rfl
  · simp [count_tokens, charTok, h]

theorem string_append_data (a b : String) : (a ++ b).data = a.data ++ b.data := rfl

theorem string_mk_data (l : List Char) : (String.mk l).data = l := rfl

theorem string_length_eq (s : String) : s.length = s.data.length := rfl

theorem pyStripList_length_le (l : List Char) :
    (pyStripList l).length ≤ l.length := by
  unfold pyStripList
  have h1 := dropWhile_length_le isPySpace l
  have h2 := dropWhile_length_le isPySpace (l.dropWhile isPySpace).reverse
  simp only [List.length_reverse] at *
  omega

theorem get_overlap_text_length_le (O : Nat) (hO : 0 < O) (s : String) :
    (get_overlap_text charTok O s).data.length ≤ O := by
  simp only [get_overlap_text]
  split
  · exact Nat.zero_le O
  · split
    · next h2 => exact h2
    · split
      · next h3 => omega
      · next h2 h3 =>
        show (List.drop ((charTok.encode s).length - O) (charTok.encode s)).length ≤ O
        simp only [List.length_drop]
        omega

theorem count_tokens_append (a b : String) :
    count_tokens charTok (a ++ b) = count_tokens charTok a + count_tokens charTok b := by
  simp [count_tokens_charTok, string_append_data]

/-! ## C2: the page-offset table built during assembly -/

/-- C2 (code_bug evidence): on a single extracted page with cleaned text
`"ab"`, the assembly records the page range `[0, 18]`, which covers only the
18-character page-marker literal; `full_text` has length 20 and offset 19
(inside the page text) lies in no recorded range, so the recorded ranges do
not partition `[0, len(full_text))` and `_find_page_for_position` returns
`None` there. -/
theorem page_offsets_gap_on_single_page :
    (assemble_full_text [⟨1, "ab", false, 0, 2⟩]).page_markers = [⟨1, 0, 18⟩] ∧
    (assemble_full_text [⟨1, "ab", false, 0, 2⟩]).full_text.length = 20 ∧
    find_page_for_position 19
      (assemble_full_text [⟨1, "ab", false, 0, 2⟩]).page_markers = none := by
  decide

/-! ## C8: empty input and whitespace-only chunks -/

/-- C8 (amended, provable part): `create_chunks` on an empty or
whitespace-only stream returns the empty chunk list without error, for any
tokenizer, budgets, and metadata. -/
theorem create_chunks_blank_input (tok : Tokenizer τ) (maxT overT : Nat)
    (text docId : String) (pms : List PageMarker) (sms : List SectionMarker)
    (meta : DocMeta) (h : pyStrip text = "") :
    create_chunks tok maxT overT text docId pms sms meta = [] := by
  unfold create_chunks
  simp [h]

/-- Witness for `create_chunks_blank_input` at the concrete whitespace
stream `"  \n "`. -/
theorem create_chunks_blank_input_witness :
    create_chunks charTok 800 100 "  \n " "" [] [] {} = [] :=
  create_chunks_blank_input charTok 800 100 "  \n " "" [] [] {} (by decide)

set_option maxRecDepth 20000 in
/-- C8 (counterexample): on the input `"a" ++ 1499 spaces ++ "b"` the
token-slice fallback emits a middle chunk whose stored text is empty after
stripping — a whitespace-only chunk is emitted. -/
theorem whitespace_only_chunk_emitted :
    (create_chunks charTok 800 100
        (String.mk ('a' :: List.replicate 1499 ' ' ++ ['b'])) "" [] [] {}).map
      (fun c => c.text) = ["a", "", "b"] := by
  decide

/-! ## C9: termination of the token-slice fallback -/

theorem chunk_large_loop_isSome (tok : Tokenizer τ) (maxT overT : Nat)
    (tokens : List τ) (docId : String) (pms : List PageMarker)
    (sms : List SectionMarker) (meta : DocMeta) (hTO : overT < maxT) :
    ∀ (fuel chunkStart startPos : Nat), tokens.length - chunkStart < fuel →
      (chunk_large_loop tok maxT overT tokens docId pms sms meta fuel
        chunkStart startPos).isSome = true := by
  intro fuel
  induction fuel with
  | zero => intro chunkStart startPos h; exact absurd h (Nat.not_lt_zero _)
  | succ fuel ih =>
    intro chunkStart startPos h
    simp only [chunk_large_loop]
    by_cases hlt : chunkStart < tokens.length
    · simp only [hlt, if_true]
      have hnext : tokens.length -
          (if min (chunkStart + maxT) tokens.length < tokens.length then
            min (chunkStart + maxT) tokens.length - overT
          else min (chunkStart + maxT) tokens.length) < fuel := by
        by_cases hend : min (chunkStart + maxT) tokens.length < tokens.length
        · rw [if_pos hend]; omega
        · rw [if_neg hend]; omega
      obtain ⟨rest, hrest⟩ := Option.isSome_iff_exists.mp
        (ih (if min (chunkStart + maxT) tokens.length < tokens.length then
              min (chunkStart + maxT) tokens.length - overT
            else min (chunkStart + maxT) tokens.length)
          (startPos + (tok.decode ((tokens.drop chunkStart).take
            (min (chunkStart + maxT) tokens.length - chunkStart))).length) hnext)
      rw [hrest]
      rfl
    · simp [hlt]

/-- C9: with overlap budget strictly below the token budget, the
token-slice fallback loop of `_chunk_large_text` terminates for every
input: the window advances by at least `maxT - overT ≥ 1` tokens per
iteration, so fuel `tokens.length + 1` always suffices. -/
theorem chunk_large_text_terminates (tok : Tokenizer τ) (maxT overT : Nat)
    (tokens : List τ) (docId : String) (pms : List PageMarker)
    (sms : List SectionMarker) (meta : DocMeta) (startPos : Nat)
    (hTO : overT < maxT) :
    (chunk_large_loop tok maxT overT tokens docId pms sms meta
      (tokens.length + 1) 0 startPos).isSome = true :=
  chunk_large_loop_isSome tok maxT overT tokens docId pms sms meta hTO
    (tokens.length + 1) 0 startPos (by omega)

/-- Witness for `chunk_large_text_terminates` at a concrete paragraph. -/
theorem chunk_large_text_terminates_witness :
    (chunk_large_loop charTok 3 1 ("abcdefgh".data) "" [] [] {}
      ("abcdefgh".data.length + 1) 0 0).isSome = true :=
  chunk_large_text_terminates charTok 3 1 "abcdefgh".data "" [] [] {} 0
    (by decide)

/-! ## C6: unreadable documents and zero-usable-page documents -/

theorem snd_mem_of_mem_enum {l : List α} {p : Nat × α} (h : p ∈ l.enum) :
    p.2 ∈ l := by
  obtain ⟨i, x⟩ := p
  obtain ⟨-, h2, h3⟩ := List.mem_enumFrom h
  show x ∈ l
  rw [h3]
  exact List.getElem_mem _

/-- C6 (amended): `process_pdf_for_chunks` never propagates an exception.
When the byte stream cannot be parsed at all, the catch-all handler returns
the `needs_ocr` dictionary carrying the error string; when parsing succeeds
but every page's cleaned text is empty (zero usable pages), it returns the
`needs_ocr` dictionary with empty chunks and no error field.  Both cases
surface as `needs_ocr=true, chunks=[]` — the unreadable case is not
surfaced as a fatal error. -/
theorem process_pdf_no_exception (parse : List Nat → Option (List RawPage))
    (pdfBytes : List Nat) (meta : DocMeta) :
    (parse pdfBytes = none →
      process_pdf_for_chunks parse pdfBytes meta =
        ⟨[], [], true, 0, 0, false, none, none, some "PDF parsing failed"⟩) ∧
    (∀ raws, parse pdfBytes = some raws →
      (∀ r ∈ raws, (match r.text with | some t => clean_text t | none => "") = "") →
      process_pdf_for_chunks parse pdfBytes meta =
        ⟨[], [], true, 0, 0, false, none, none, none⟩) := by
  constructor
  · intro h
    simp [process_pdf_for_chunks, extract_text_from_pdf, h]
  · intro raws hp hall
    have hextract : extract_text_from_pdf parse pdfBytes = .ok [] := by
      simp only [extract_text_from_pdf, hp]
      congr 1
      rw [List.filter_eq_nil_iff]
      intro pd hpd
      obtain ⟨p, hpmem, rfl⟩ := List.mem_map.mp hpd
      simp [hall p.2 (snd_mem_of_mem_enum hpmem)]
    simp [process_pdf_for_chunks, hextract]

/-- Witness for `process_pdf_no_exception`: a parser failing on empty bytes
and succeeding with a single whitespace-only page on `[0]`. -/
theorem process_pdf_no_exception_witness :
    (process_pdf_for_chunks
        (fun bs => if bs = [] then none else some [⟨some " \n ", 0⟩]) [] {} =
      ⟨[], [], true, 0, 0, false, none, none, some "PDF parsing failed"⟩) ∧
    (process_pdf_for_chunks
        (fun bs => if bs = [] then none else some [⟨some " \n ", 0⟩]) [0] {} =
      ⟨[], [], true, 0, 0, false, none, none, none⟩) := by
  constructor
  · exact (process_pdf_no_exception
      (fun bs => if bs = [] then none else some [⟨some " \n ", 0⟩]) [] {}).1
      (by decide)
  · exact (process_pdf_no_exception
      (fun bs => if bs = [] then none else some [⟨some " \n ", 0⟩]) [0] {}).2
      [⟨some " \n ", 0⟩] (by decide) (by decide)

/-- C6 (counterexample to the claim as stated): on an unparseable byte
stream the pipeline does not fail with an exception surfaced to the caller;
`process_pdf_for_chunks` returns normally with `needs_ocr=true`,
`chunks=[]` and the error recorded as a string field. -/
theorem unreadable_pdf_not_fatal :
    process_pdf_for_chunks (fun _ => none) [] {} =
      ⟨[], [], true, 0, 0, false, none, none, some "PDF parsing failed"⟩ := by
  decide

/-! ## C5: token_count versus the stored (stripped) text -/

theorem chunk_large_loop_all (tok : Tokenizer τ) (maxT overT : Nat)
    (tokens : List τ) (docId : String) (pms : List PageMarker)
    (sms : List SectionMarker) (meta : DocMeta) (P : ChunkMeta → Prop)
    (hP : ∀ t s e, P (create_chunk_metadata tok t docId s e pms sms meta)) :
    ∀ (fuel cs sp : Nat) (res : List ChunkMeta),
      chunk_large_loop tok maxT overT tokens docId pms sms meta fuel cs sp =
        some res → ∀ c ∈ res, P c := by
  intro fuel
  induction fuel with
  | zero => intro cs sp res h; simp [chunk_large_loop] at h
  | succ fuel ih =>
    intro cs sp res h
    simp only [chunk_large_loop] at h
    by_cases hlt : cs < tokens.length
    · simp only [hlt, if_true] at h
      split at h
      · exact absurd h (by simp)
      · next rest heq =>
        obtain rfl : _ :: rest = res := Option.some.inj h
        intro c hc
        rcases List.mem_cons.mp hc with rfl | hc2
        · exact hP _ _ _
        · exact ih _ _ _ heq c hc2
    · simp only [hlt, if_false] at h
      obtain rfl : [] = res := Option.some.inj h
      intro c hc
      exact absurd hc (List.not_mem_nil c)

theorem chunk_large_text_all (tok : Tokenizer τ) (maxT overT : Nat)
    (text docId : String) (sp : Nat) (pms : List PageMarker)
    (sms : List SectionMarker) (meta : DocMeta) (P : ChunkMeta → Prop)
    (hP : ∀ t s e, P (create_chunk_metadata tok t docId s e pms sms meta)) :
    ∀ c ∈ chunk_large_text tok maxT overT text docId sp pms sms meta, P c := by
  intro c hc
  simp only [chunk_large_text] at hc
  cases hm : chunk_large_loop tok maxT overT (tok.encode text) docId pms sms
      meta ((tok.encode text).length + 1) 0 sp with
  | none => rw [hm] at hc; exact absurd hc (List.not_mem_nil c)
  | some res =>
    rw [hm] at hc
    exact chunk_large_loop_all tok maxT overT (tok.encode text) docId pms sms
      meta P hP _ _ _ res hm c hc

theorem mem_ite_append_singleton {P : ChunkMeta → Prop}
    {chunks : List ChunkMeta} {m c : ChunkMeta}
    {cond : Prop} [Decidable cond]
    (hc : c ∈ if cond then chunks ++ [m] else chunks)
    (hch : ∀ x ∈ chunks, P x) (hm : P m) : P c := by
  split at hc
  · rcases List.mem_append.mp hc with h | h
    · exact hch c h
    · rw [List.mem_singleton.mp h]; exact hm
  · exact hch c hc

theorem create_chunks_loop_all (tok : Tokenizer τ) (maxT overT : Nat)
    (docId : String) (pms : List PageMarker) (sms : List SectionMarker)
    (meta : DocMeta) (P : ChunkMeta → Prop)
    (hP : ∀ t s e, P (create_chunk_metadata tok t docId s e pms sms meta)) :
    ∀ (paras : List String) (chunks : List ChunkMeta) (cur : String)
      (curTok sp : Nat), (∀ x ∈ chunks, P x) →
      ∀ c ∈ create_chunks_loop tok maxT overT docId pms sms meta paras chunks
        cur curTok sp, P c := by
  intro paras
  induction paras with
  | nil =>
    intro chunks cur curTok sp hch c hc
    simp only [create_chunks_loop] at hc
    exact mem_ite_append_singleton hc hch (hP _ _ _)
  | cons para rest ih =>
    intro chunks cur curTok sp hch c hc
    simp only [create_chunks_loop] at hc
    split at hc
    · refine ih _ _ _ _ ?_ c hc
      intro x hx
      rcases List.mem_append.mp hx with h | h
      · exact mem_ite_append_singleton h hch (hP _ _ _)
      · exact chunk_large_text_all tok maxT overT para docId _ pms sms meta P
          hP x h
    · split at hc
      · refine ih _ _ _ _ ?_ c hc
        intro x hx
        exact mem_ite_append_singleton hx hch (hP _ _ _)
      · exact ih _ _ _ _ hch c hc

/-- C5 (amended): for every emitted chunk, the tokenizer count of the
stored (stripped) `text` is at most the stored `token_count` (which the
source computes on the unstripped accumulated text), with the
character-level tokenizer model. -/
theorem chunk_text_count_le_token_count (maxT overT : Nat)
    (text docId : String) (pms : List PageMarker) (sms : List SectionMarker)
    (meta : DocMeta) :
    ∀ c ∈ create_chunks charTok maxT overT text docId pms sms meta,
      count_tokens charTok c.text ≤ c.token_count := by
  intro c hc
  unfold create_chunks at hc
  split at hc
  · exact absurd hc (List.not_mem_nil c)
  · refine create_chunks_loop_all charTok maxT overT docId pms sms meta
      (fun c => count_tokens charTok c.text ≤ c.token_count) ?_ _ _ _ _ _
      (by intro x hx; exact absurd hx (List.not_mem_nil x)) c hc
    intro t s e
    show count_tokens charTok (pyStrip t) ≤ count_tokens charTok t
    rw [count_tokens_charTok, count_tokens_charTok]
    exact pyStripList_length_le t.data

/-- Witness for `chunk_text_count_le_token_count` at a concrete input. -/
theorem chunk_text_count_le_token_count_witness :
    count_tokens charTok
        (create_chunk_metadata charTok "ab" "" 0 2 [] [] {}).text ≤
      (create_chunk_metadata charTok "ab" "" 0 2 [] [] {}).token_count :=
  chunk_text_count_le_token_count 800 100 "ab" "" [] [] {} _ (by decide)

set_option maxRecDepth 12000 in
/-- C5 (counterexample to the claim as stated): on the input
`"x" * 799 ++ " " ++ "y" * 200` the first fallback slice stores
`token_count = 800` (count of the unstripped slice) while the stored
stripped text has only 799 tokens. -/
theorem token_count_ne_tokenizer_of_text :
    ¬ (∀ c ∈ create_chunks charTok 800 100
        (String.mk (List.replicate 799 'x' ++ ' ' :: List.replicate 200 'y'))
        "" [] [] {},
        c.token_count = count_tokens charTok c.text) := by
  decide

/-! ## C1: chunk token counts versus the budget -/

theorem chunk_large_loop_token_le (maxT overT : Nat) (tokens : List Char)
    (docId : String) (pms : List PageMarker) (sms : List SectionMarker)
    (meta : DocMeta) :
    ∀ (fuel cs sp : Nat) (res : List ChunkMeta),
      chunk_large_loop charTok maxT overT tokens docId pms sms meta fuel cs sp =
        some res → ∀ c ∈ res, c.token_count ≤ maxT := by
  intro fuel
  induction fuel with
  | zero => intro cs sp res h; simp [chunk_large_loop] at h
  | succ fuel ih =>
    intro cs sp res h
    simp only [chunk_large_loop] at h
    by_cases hlt : cs < tokens.length
    · simp only [hlt, if_true] at h
      split at h
      · exact absurd h (by simp)
      · next rest heq =>
        obtain rfl : _ :: rest = res := Option.some.inj h
        intro c hc
        rcases List.mem_cons.mp hc with rfl | hc2
        · show (create_chunk_metadata charTok _ docId sp _ pms sms meta).token_count ≤ maxT
          show count_tokens charTok
            (charTok.decode ((tokens.drop cs).take
              (min (cs + maxT) tokens.length - cs))) ≤ maxT
          rw [count_tokens_charTok]
          show ((tokens.drop cs).take (min (cs + maxT) tokens.length - cs)).length ≤ maxT
          have := List.length_take_le (min (cs + maxT) tokens.length - cs)
            (tokens.drop cs)
          omega
        · exact ih _ _ _ heq c hc2
    · simp only [hlt, if_false] at h
      obtain rfl : [] = res := Option.some.inj h
      intro c hc
      exact absurd hc (List.not_mem_nil c)

theorem chunk_large_text_token_le (maxT overT : Nat) (text docId : String)
    (sp : Nat) (pms : List PageMarker) (sms : List SectionMarker)
    (meta : DocMeta) :
    ∀ c ∈ chunk_large_text charTok maxT overT text docId sp pms sms meta,
      c.token_count ≤ maxT := by
  intro c hc
  simp only [chunk_large_text] at hc
  cases hm : chunk_large_loop charTok maxT overT (charTok.encode text) docId
      pms sms meta ((charTok.encode text).length + 1) 0 sp with
  | none => rw [hm] at hc; exact absurd hc (List.not_mem_nil c)
  | some res =>
    rw [hm] at hc
    exact chunk_large_loop_token_le maxT overT (charTok.encode text) docId pms
      sms meta _ _ _ res hm c hc

theorem create_chunks_loop_token_bound (maxT overT : Nat) (hO : 0 < overT)
    (docId : String) (pms : List PageMarker) (sms : List SectionMarker)
    (meta : DocMeta) :
    ∀ (paras : List String) (chunks : List ChunkMeta) (cur : String)
      (curTok sp : Nat),
      (∀ x ∈ chunks, x.token_count ≤ maxT + overT) →
      cur.data.length ≤ maxT + overT →
      curTok = cur.data.length →
      ∀ c ∈ create_chunks_loop charTok maxT overT docId pms sms meta paras
        chunks cur curTok sp, c.token_count ≤ maxT + overT := by
  intro paras
  induction paras with
  | nil =>
    intro chunks cur curTok sp hch hcur hcurTok c hc
    simp only [create_chunks_loop] at hc
    refine mem_ite_append_singleton hc hch ?_
    show count_tokens charTok cur ≤ maxT + overT
    rw [count_tokens_charTok]
    exact hcur
  | cons para rest ih =>
    intro chunks cur curTok sp hch hcur hcurTok c hc
    simp only [create_chunks_loop] at hc
    split at hc
    · -- paragraph alone exceeds the budget: flush, token-slice, reset
      refine ih _ "" _ _ ?_ (by simp) (by simp) c hc
      intro x hx
      rcases List.mem_append.mp hx with h | h
      · refine mem_ite_append_singleton h hch ?_
        show count_tokens charTok cur ≤ maxT + overT
        rw [count_tokens_charTok]; exact hcur
      · have := chunk_large_text_token_le maxT overT para docId
          (sp + cur.length) pms sms meta x h
        omega
    · split at hc
      · -- budget overflow: flush, seed with overlap tail plus paragraph
        next h1 h2 =>
        refine ih _ (get_overlap_text charTok overT cur ++ para) _ _ ?_ ?_
          (count_tokens_charTok _) c hc
        · intro x hx
          refine mem_ite_append_singleton hx hch ?_
          show count_tokens charTok cur ≤ maxT + overT
          rw [count_tokens_charTok]; exact hcur
        · rw [string_append_data, List.length_append]
          have hov := get_overlap_text_length_le overT hO cur
          have hpara : para.data.length ≤ maxT := by
            rw [count_tokens_charTok] at h1
            omega
          omega
      · -- paragraph fits: extend the current chunk
        next h1 h2 =>
        refine ih _ (cur ++ para) _ _ hch ?_ ?_ c hc
        · rw [string_append_data, List.length_append]
          rw [count_tokens_charTok] at h2
          omega
        · rw [string_append_data, List.length_append, hcurTok,
            count_tokens_charTok]

/-- C1 (amended): with the character-level tokenizer and a positive overlap
budget, every chunk emitted by `create_chunks` has
`token_count ≤ maxT + overT`.  Chunks may exceed the budget `maxT` itself —
not only for oversized atomic sentence units (the token-slice fallback in
fact caps those at `maxT`) but for overlap-seeded chunks, which may carry
up to `overT` extra tokens. -/
theorem chunk_token_count_le_budget_plus_overlap (maxT overT : Nat)
    (hO : 0 < overT) (text docId : String) (pms : List PageMarker)
    (sms : List SectionMarker) (meta : DocMeta) :
    ∀ c ∈ create_chunks charTok maxT overT text docId pms sms meta,
      c.token_count ≤ maxT + overT := by
  intro c hc
  unfold create_chunks at hc
  split at hc
  · exact absurd hc (List.not_mem_nil c)
  · exact create_chunks_loop_token_bound maxT overT hO docId pms sms meta
      _ [] "" 0 0 (by intro x hx; exact absurd hx (List.not_mem_nil x))
      (by simp) (by simp) c hc

/-- Witness for `chunk_token_count_le_budget_plus_overlap` at a concrete
input. -/
theorem chunk_token_count_le_budget_plus_overlap_witness :
    (create_chunk_metadata charTok "abc" "" 0 3 [] [] {}).token_count ≤
      8 + 2 :=
  chunk_token_count_le_budget_plus_overlap 8 2 (by decide) "abc" "" [] [] {}
    _ (by decide)

set_option maxRecDepth 10000 in
/-- C1 (counterexample to the claim as stated): on
`"a" * 300 ++ "\n\n" ++ "b" * 750` with `T = 800`, `O = 100`, the second
chunk (overlap tail of 100 tokens plus the 750-token paragraph) has
`token_count = 850 > 800`, although no atomic unit of the paragraph list
exceeds the budget (300 and 750 are both ≤ 800). -/
theorem chunk_exceeds_budget_without_oversized_unit :
    ((create_chunks charTok 800 100
        (String.mk (List.replicate 300 'a' ++ '\n' :: '\n' ::
          List.replicate 750 'b')) "" [] [] {}).map
      (fun c => c.token_count) = [300, 850]) ∧
    ((split_into_paragraphs charTok 800
        (String.mk (List.replicate 300 'a' ++ '\n' :: '\n' ::
          List.replicate 750 'b'))).all
      (fun p => count_tokens charTok p ≤ 800) = true) := by
  decide

/-! ## C7: round-trip on a stream of exactly T tokens -/

theorem string_nil_append (s : String) : "" ++ s = s := rfl

theorem string_eq_empty_of_data_nil {s : String} (h : s.data = []) : s = "" :=
  String.ext (by rw [h])

/-- C7 (amended): chunking a stream of exactly `maxT` tokens that contains
no paragraph-break separator, no sentence-boundary split, and equals its
own strip yields exactly one chunk whose text is the whole input
(character-level tokenizer model).  Without the separator conditions and
the strip condition the round-trip fails, as the counterexample shows. -/
theorem single_budget_stream_roundtrip (maxT overT : Nat) (text docId : String)
    (pms : List PageMarker) (sms : List SectionMarker) (meta : DocMeta)
    (hT : count_tokens charTok text = maxT)
    (hne : text ≠ "")
    (hstrip : pyStrip text = text)
    (hpara : split_on_blank_lines text = [text])
    (hsent : split_sentences text = [text]) :
    (create_chunks charTok maxT overT text docId pms sms meta).map
      (fun c => c.text) = [text] := by
  have hdata : text.data ≠ [] := by
    intro h
    exact hne (string_eq_empty_of_data_nil h)
  have hT1 : 1 ≤ maxT := by
    rw [← hT, count_tokens_charTok]
    exact List.length_pos.mpr hdata
  have hgt : count_tokens charTok text > maxT / 2 := by
    rw [hT]
    exact Nat.div_lt_self (by omega) (by omega)
  have hparas : split_into_paragraphs charTok maxT text = [text] := by
    simp only [split_into_paragraphs, hpara, List.flatMap_cons, List.flatMap_nil,
      List.append_nil, hgt, if_true, hsent]
    have hm : mergeSentAux charTok maxT "" [text] = [text] := by
      simp only [mergeSentAux, string_nil_append, hgt, if_true]
      simp [hne]
    rw [hm]
    simp [hstrip, hne]
  unfold create_chunks
  rw [hstrip, if_neg hne, hparas]
  simp only [create_chunks_loop, hT]
  rw [if_neg (by omega : ¬ maxT > maxT)]
  rw [if_neg (by omega : ¬ 0 + maxT > maxT)]
  simp only [string_nil_append, hstrip]
  rw [if_pos hne]
  simp [create_chunk_metadata, hstrip]

/-- Witness for `single_budget_stream_roundtrip` at `maxT = 3`, input
`"abc"`. -/
theorem single_budget_stream_roundtrip_witness :
    (create_chunks charTok 3 1 "abc" "" [] [] {}).map (fun c => c.text) =
      ["abc"] :=
  single_budget_stream_roundtrip 3 1 "abc" "" [] [] {} (by decide) (by decide)
    (by decide) (by decide) (by decide)

set_option maxRecDepth 10000 in
/-- C7 (counterexample to the claim as stated): the 800-token stream
`"a" * 397 ++ ". " ++ "b" * 400 ++ " "` has no paragraph break, yet
chunking it yields one chunk whose text differs from the input (the
sentence re-merge replaces the separator after the period and the stored
text is stripped). -/
theorem roundtrip_fails_on_sentence_split :
    (count_tokens charTok (String.mk (List.replicate 397 'a' ++ '.' :: ' ' ::
        (List.replicate 400 'b' ++ [' ']))) = 800) ∧
    (split_on_blank_lines (String.mk (List.replicate 397 'a' ++ '.' :: ' ' ::
        (List.replicate 400 'b' ++ [' ']))) =
      [String.mk (List.replicate 397 'a' ++ '.' :: ' ' ::
        (List.replicate 400 'b' ++ [' ']))]) ∧
    ((create_chunks charTok 800 100
        (String.mk (List.replicate 397 'a' ++ '.' :: ' ' ::
          (List.replicate 400 'b' ++ [' ']))) "" [] [] {}).map
      (fun c => c.text) ≠
      [String.mk (List.replicate 397 'a' ++ '.' :: ' ' ::
        (List.replicate 400 'b' ++ [' ']))]) := by
  decide

/-! ## C4: index correspondence and blank handling in embed_many -/

theorem foldl_set_length (ps : List ((Nat × String) × Vec)) (res : List Vec) :
    (ps.foldl (fun r pe => r.set pe.1.1 pe.2) res).length = res.length := by
  induction ps generalizing res with
  | nil => rfl
  | cons p ps ih => rw [List.foldl_cons, ih, List.length_set]

theorem apply_batch_length (api : EmbedApi) (cfg : EmbCfg) (res : List Vec)
    (batch : List (Nat × String)) :
    (apply_batch api cfg res batch).length = res.length :=
  foldl_set_length _ _

theorem foldl_apply_batch_length (api : EmbedApi) (cfg : EmbCfg)
    (bs : List (List (Nat × String))) (res : List Vec) :
    (bs.foldl (apply_batch api cfg) res).length = res.length := by
  induction bs generalizing res with
  | nil => rfl
  | cons b bs ih => rw [List.foldl_cons, ih, apply_batch_length]

theorem generate_embeddings_batch_length (api : EmbedApi) (cfg : EmbCfg)
    (texts : List String) :
    (generate_embeddings_batch api cfg texts).length = texts.length := by
  unfold generate_embeddings_batch
  split
  · next h => rw [h]; rfl
  · split
    · rw [List.length_map]
    · rw [foldl_apply_batch_length, List.length_map]

theorem foldl_set_getD_of_not_mem (ps : List ((Nat × String) × Vec))
    (res : List Vec) (i : Nat) (h : ∀ pe ∈ ps, pe.1.1 ≠ i) :
    (ps.foldl (fun r pe => r.set pe.1.1 pe.2) res).getD i [] =
      res.getD i [] := by
  induction ps generalizing res with
  | nil => rfl
  | cons p ps ih =>
    rw [List.foldl_cons, ih _ (fun pe hpe => h pe (List.mem_cons_of_mem p hpe))]
    rw [List.getD_eq_getElem?_getD, List.getD_eq_getElem?_getD,
      List.getElem?_set_ne (h p (List.mem_cons_self p ps))]

theorem apply_batch_getD_of_not_mem (api : EmbedApi) (cfg : EmbCfg)
    (res : List Vec) (batch : List (Nat × String)) (i : Nat)
    (h : ∀ p ∈ batch, p.1 ≠ i) :
    (apply_batch api cfg res batch).getD i [] = res.getD i [] := by
  unfold apply_batch
  refine foldl_set_getD_of_not_mem _ _ _ ?_
  intro pe hpe
  exact h pe.1 (List.of_mem_zip hpe).1

theorem foldl_apply_batch_getD_of_not_mem (api : EmbedApi) (cfg : EmbCfg)
    (bs : List (List (Nat × String))) (res : List Vec) (i : Nat)
    (h : ∀ b ∈ bs, ∀ p ∈ b, p.1 ≠ i) :
    (bs.foldl (apply_batch api cfg) res).getD i [] = res.getD i [] := by
  induction bs generalizing res with
  | nil => rfl
  | cons b bs ih =>
    rw [List.foldl_cons,
      ih _ (fun b' hb' p hp => h b' (List.mem_cons_of_mem b hb') p hp),
      apply_batch_getD_of_not_mem api cfg res b i
        (fun p hp => h b (List.mem_cons_self b bs) p hp)]

theorem enumFrom_fst_lt_pairwise (l : List α) :
    ∀ n : Nat, List.Pairwise (fun (a b : Nat × α) => a.1 < b.1)
      (List.enumFrom n l) := by
  induction l with
  | nil => intro n; simp
  | cons a l ih =>
    intro n
    rw [List.enumFrom_cons]
    refine List.Pairwise.cons ?_ (ih (n + 1))
    intro x hx
    exact (List.mem_enumFrom hx).1

theorem filtered_texts_pairwise (texts : List String) :
    List.Pairwise (fun (a b : Nat × String) => a.1 < b.1)
      (filtered_texts texts) :=
  List.Pairwise.filter _ (enumFrom_fst_lt_pairwise texts 0)

theorem mem_filtered_texts {texts : List String} {p : Nat × String}
    (h : p ∈ filtered_texts texts) :
    p.1 < texts.length ∧ texts[p.1]? = some p.2 ∧ pyStrip p.2 ≠ "" := by
  obtain ⟨henum, hdec⟩ := List.mem_filter.mp h
  obtain ⟨i, x⟩ := p
  obtain ⟨-, hlt, heq⟩ := List.mem_enumFrom henum
  simp only [Nat.zero_add] at hlt
  refine ⟨hlt, ?_, by simpa using hdec⟩
  rw [List.getElem?_eq_getElem hlt]
  exact congrArg some heq.symm

theorem chunksOfAux_flatten (n : Nat) (hn : 0 < n) :
    ∀ (fuel : Nat) (l : List α), l.length ≤ fuel →
      (chunksOfAux n fuel l).flatten = l := by
  intro fuel
  induction fuel with
  | zero =>
    intro l h
    have : l = [] := List.eq_nil_of_length_eq_zero (by omega)
    subst this
    rfl
  | succ fuel ih =>
    intro l h
    cases l with
    | nil => rfl
    | cons a l' =>
      show ((a :: l').take n :: chunksOfAux n fuel ((a :: l').drop n)).flatten =
        a :: l'
      rw [List.flatten_cons, ih ((a :: l').drop n) (by
        rw [List.length_drop]
        simp only [List.length_cons] at h ⊢
        omega)]
      exact List.take_append_drop n (a :: l')

theorem chunksOf_flatten (n : Nat) (hn : 0 < n) (l : List α) :
    (chunksOf n l).flatten = l := by
  unfold chunksOf
  rw [if_neg (by omega)]
  exact chunksOfAux_flatten n hn l.length l (Nat.le_refl _)

theorem mem_of_mem_chunksOf {n : Nat} {l : List α} {b : List α} {x : α}
    (hb : b ∈ chunksOf n l) (hx : x ∈ b) : x ∈ l := by
  by_cases hn : n = 0
  · rw [chunksOf, if_pos hn] at hb
    exact absurd hb (List.not_mem_nil b)
  · rw [← chunksOf_flatten n (by omega) l]
    exact List.mem_flatten.mpr ⟨b, hb, hx⟩

theorem map_const_nil_getD (texts : List String) (i : Nat) :
    (texts.map (fun _ => ([] : Vec))).getD i [] = [] := by
  rw [List.getD_eq_getElem?_getD, List.getElem?_map]
  cases texts[i]? <;> rfl

/-- C4: `generate_embeddings_batch` returns exactly one output per input in
index order; the empty input yields the empty list; every blank
(whitespace-only) input maps to an empty vector; and no blank text appears
in any batch submitted to the embedding API. -/
theorem embed_many_index_correspondence (api : EmbedApi) (cfg : EmbCfg)
    (texts : List String) :
    (generate_embeddings_batch api cfg texts).length = texts.length ∧
    generate_embeddings_batch api cfg [] = [] ∧
    (∀ i : Nat, i < texts.length → pyStrip (texts.getD i "") = "" →
      (generate_embeddings_batch api cfg texts).getD i [] = []) ∧
    (∀ b ∈ text_batches cfg texts, ∀ p ∈ b, pyStrip p.2 ≠ "") := by
  refine ⟨generate_embeddings_batch_length api cfg texts, rfl, ?_, ?_⟩
  · intro i hi hblank
    unfold generate_embeddings_batch
    split
    · next h => rw [h] at hi; exact absurd hi (Nat.not_lt_zero i)
    · split
      · exact map_const_nil_getD texts i
      · rw [foldl_apply_batch_getD_of_not_mem]
        · exact map_const_nil_getD texts i
        · intro b hb p hp hpi
          obtain ⟨-, hget, hne⟩ := mem_filtered_texts (mem_of_mem_chunksOf hb hp)
          rw [hpi] at hget
          rw [List.getD_eq_getElem?_getD, hget] at hblank
          exact hne hblank
  · intro b hb p hp
    exact (mem_filtered_texts (mem_of_mem_chunksOf hb hp)).2.2

/-- Witness for `embed_many_index_correspondence` on `["", "a"]`: the blank
first input resolves to the empty vector and the single submitted batch
contains only the non-blank text. -/
theorem embed_many_index_correspondence_witness :
    (generate_embeddings_batch (fun ts _ => .ok (ts.map (fun _ => [(1.0 : Float)])))
        {} ["", "a"]).getD 0 [] = [] :=
  (embed_many_index_correspondence
      (fun ts _ => .ok (ts.map (fun _ => [(1.0 : Float)]))) {} ["", "a"]).2.2.1
    0 (by decide) (by decide)

/-! ## C10: chunk enrichment preserves fields -/

theorem getElem?_enrich (api : EmbedApi) (cfg : EmbCfg)
    (chunks : List ChunkMeta) (h : ¬ chunks = []) (i : Nat) :
    (generate_embeddings_for_chunks api cfg chunks)[i]? =
      (chunks[i]?).map (fun c =>
        ⟨c, (generate_embeddings_batch api cfg
              (chunks.map (fun c => c.text))).getD i [],
          !((generate_embeddings_batch api cfg
              (chunks.map (fun c => c.text))).getD i []).isEmpty⟩) := by
  unfold generate_embeddings_for_chunks
  rw [if_neg h, List.getElem?_map, List.getElem?_enum]
  cases chunks[i]? <;> rfl

/-- C10: `generate_embeddings_for_chunks` returns one output per input
chunk in order; each output's pre-existing fields equal the corresponding
input chunk's fields (the whole `ChunkMeta` is copied unchanged into
`base`), only `embedding` and `has_embedding` are added, and
`has_embedding` is true exactly when the added vector is non-empty. -/
theorem enrich_chunks_preserves_fields (api : EmbedApi) (cfg : EmbCfg)
    (chunks : List ChunkMeta) :
    (generate_embeddings_for_chunks api cfg chunks).length = chunks.length ∧
    (∀ i : Nat, ((generate_embeddings_for_chunks api cfg chunks)[i]?).map
      (fun c => c.base) = chunks[i]?) ∧
    (∀ (i : Nat) (c : EnrichedChunk),
      (generate_embeddings_for_chunks api cfg chunks)[i]? = some c →
      (c.has_embedding = true ↔ c.embedding ≠ [])) := by
  by_cases h : chunks = []
  · subst h
    refine ⟨rfl, ?_, ?_⟩
    · intro i
      rfl
    · intro i c hc
      rw [show generate_embeddings_for_chunks api cfg [] = [] from rfl] at hc
      simp at hc
  · refine ⟨?_, ?_, ?_⟩
    · unfold generate_embeddings_for_chunks
      rw [if_neg h, List.length_map, List.enum_length]
    · intro i
      rw [getElem?_enrich api cfg chunks h i]
      cases chunks[i]? <;> rfl
    · intro i c hc
      rw [getElem?_enrich api cfg chunks h i] at hc
      cases hch : chunks[i]? with
      | none => rw [hch] at hc; simp at hc
      | some a =>
        rw [hch] at hc
        obtain rfl : _ = c := Option.some.inj hc
        show (!((generate_embeddings_batch api cfg
          (chunks.map (fun c => c.text))).getD i []).isEmpty) = true ↔ _
        cases (generate_embeddings_batch api cfg
          (chunks.map (fun c => c.text))).getD i [] <;> simp

/-- Witness for `enrich_chunks_preserves_fields` on a single concrete
chunk. -/
theorem enrich_chunks_preserves_fields_witness :
    ((generate_embeddings_for_chunks
        (fun ts _ => .ok (ts.map (fun _ => [(1.0 : Float)]))) {}
        [create_chunk_metadata charTok "a" "" 0 1 [] [] {}])[0]?).map
      (fun c => c.base) =
    some (create_chunk_metadata charTok "a" "" 0 1 [] [] {}) := by
  rw [(enrich_chunks_preserves_fields
    (fun ts _ => .ok (ts.map (fun _ => [(1.0 : Float)]))) {}
    [create_chunk_metadata charTok "a" "" 0 1 [] [] {}]).2.1 0]
  rfl

/-! ## C3: per-batch failure isolation -/

theorem retry_go_all_fail (api : EmbedApi) (texts : List String) :
    ∀ (rem attempt : Nat),
      (∀ a, attempt ≤ a → a < attempt + rem → ∃ e, api texts a = .error e) →
      generate_batch_with_retry_go api texts attempt rem =
        List.replicate texts.length [] := by
  intro rem
  induction rem with
  | zero => intro attempt h; rfl
  | succ rem ih =>
    intro attempt h
    obtain ⟨e, he⟩ := h attempt (Nat.le_refl _) (by omega)
    show (match api texts attempt with
      | .ok embs => embs
      | .error _ =>
        if rem = 0 then List.replicate texts.length []
        else generate_batch_with_retry_go api texts (attempt + 1) rem) = _
    rw [he]
    by_cases hr : rem = 0
    · rw [if_pos hr]
    · rw [if_neg hr]
      exact ih (attempt + 1) (fun a h1 h2 => h a (by omega) (by omega))

theorem generate_batch_with_retry_all_fail (api : EmbedApi) (cfg : EmbCfg)
    (texts : List String)
    (h : ∀ a, a < cfg.max_retries → ∃ e, api texts a = .error e) :
    generate_batch_with_retry api cfg texts =
      List.replicate texts.length [] :=
  retry_go_all_fail api texts cfg.max_retries 0
    (fun a _ h2 => h a (by omega))

theorem generate_batch_with_retry_first_ok (api : EmbedApi) (cfg : EmbCfg)
    (texts : List String) (vs : List Vec) (h0 : 0 < cfg.max_retries)
    (hok : api texts 0 = .ok vs) :
    generate_batch_with_retry api cfg texts = vs := by
  unfold generate_batch_with_retry
  cases hr : cfg.max_retries with
  | zero => omega
  | succ rem =>
    show (match api texts 0 with
      | .ok embs => embs
      | .error _ =>
        if rem = 0 then List.replicate texts.length []
        else generate_batch_with_retry_go api texts 1 rem) = vs
    rw [hok]

theorem replicate_nil_getD (n m : Nat) :
    (List.replicate n ([] : Vec)).getD m [] = [] := by
  rw [List.getD_eq_getElem?_getD, List.getElem?_replicate]
  split <;> rfl

theorem foldl_set_zip_getD (batch : List (Nat × String)) :
    ∀ (embs : List Vec) (res : List Vec) (m : Nat) (hm : m < batch.length),
      List.Pairwise (fun (a b : Nat × String) => a.1 < b.1) batch →
      (∀ p ∈ batch, p.1 < res.length) →
      (∀ p ∈ batch, res.getD p.1 [] = []) →
      ((batch.zip embs).foldl (fun r pe => r.set pe.1.1 pe.2) res).getD
        (batch.get ⟨m, hm⟩).1 [] = embs.getD m [] := by
  induction batch with
  | nil => intro embs res m hm; exact absurd hm (Nat.not_lt_zero m)
  | cons p b ih =>
    intro embs res m hm hpw hbound hinit
    obtain ⟨hphead, hptail⟩ := List.pairwise_cons.mp hpw
    cases embs with
    | nil =>
      show res.getD ((p :: b).get ⟨m, hm⟩).1 [] = [].getD m []
      rw [hinit _ (List.get_mem (p :: b) m hm)]
      cases m <;> rfl
    | cons e es =>
      rw [List.zip_cons_cons, List.foldl_cons]
      cases m with
      | zero =>
        show ((b.zip es).foldl (fun r pe => r.set pe.1.1 pe.2)
            (res.set p.1 e)).getD p.1 [] = e
        rw [foldl_set_getD_of_not_mem _ _ _ (fun pe hpe =>
          Nat.ne_of_gt (hphead pe.1 (List.of_mem_zip hpe).1))]
        rw [List.getD_eq_getElem?_getD,
          List.getElem?_set_self (hbound p (List.mem_cons_self p b))]
        rfl
      | succ m' =>
        have hm' : m' < b.length := by
          simp only [List.length_cons] at hm
          omega
        show ((b.zip es).foldl (fun r pe => r.set pe.1.1 pe.2)
            (res.set p.1 e)).getD (b.get ⟨m', hm'⟩).1 [] = es.getD m' []
        refine ih es (res.set p.1 e) m' hm' hptail ?_ ?_
        · intro q hq
          rw [List.length_set]
          exact hbound q (List.mem_cons_of_mem p hq)
        · intro q hq
          rw [List.getD_eq_getElem?_getD,
            List.getElem?_set_ne (Nat.ne_of_lt (hphead q hq)),
            ← List.getD_eq_getElem?_getD]
          exact hinit q (List.mem_cons_of_mem p hq)

theorem apply_batch_getD_at (api : EmbedApi) (cfg : EmbCfg)
    (res : List Vec) (batch : List (Nat × String)) (m : Nat)
    (hm : m < batch.length)
    (hpw : List.Pairwise (fun (a b : Nat × String) => a.1 < b.1) batch)
    (hbound : ∀ p ∈ batch, p.1 < res.length)
    (hinit : ∀ p ∈ batch, res.getD p.1 [] = []) :
    (apply_batch api cfg res batch).getD (batch.get ⟨m, hm⟩).1 [] =
      (generate_batch_with_retry api cfg
        (batch.map (fun p => p.2))).getD m [] :=
  foldl_set_zip_getD batch _ res m hm hpw hbound hinit

theorem foldl_batches_getD (api : EmbedApi) (cfg : EmbCfg) :
    ∀ (bs : List (List (Nat × String))) (res : List Vec),
      List.Pairwise (fun (a b : Nat × String) => a.1 < b.1) bs.flatten →
      (∀ p ∈ bs.flatten, p.1 < res.length) →
      (∀ p ∈ bs.flatten, res.getD p.1 [] = []) →
      ∀ (k : Nat) (hk : k < bs.length) (m : Nat)
        (hm : m < (bs.get ⟨k, hk⟩).length),
        (bs.foldl (apply_batch api cfg) res).getD
          ((bs.get ⟨k, hk⟩).get ⟨m, hm⟩).1 [] =
        (generate_batch_with_retry api cfg
          ((bs.get ⟨k, hk⟩).map (fun p => p.2))).getD m [] := by
  intro bs
  induction bs with
  | nil => intro res _ _ _ k hk; exact absurd hk (Nat.not_lt_zero k)
  | cons b bs ih =>
    intro res hpw hbound hinit k hk m hm
    rw [List.flatten_cons] at hpw hbound hinit
    obtain ⟨hpwb, hpwrest, hcross⟩ := List.pairwise_append.mp hpw
    rw [List.foldl_cons]
    cases k with
    | zero =>
      show (bs.foldl (apply_batch api cfg)
        (apply_batch api cfg res b)).getD ((b.get ⟨m, hm⟩).1) [] = _
      rw [foldl_apply_batch_getD_of_not_mem api cfg bs _ _ (fun b' hb' p hp =>
        Nat.ne_of_gt (hcross _ (List.get_mem b m hm) p
          (List.mem_flatten.mpr ⟨b', hb', hp⟩)))]
      exact apply_batch_getD_at api cfg res b m hm hpwb
        (fun p hp => hbound p (List.mem_append_left _ hp))
        (fun p hp => hinit p (List.mem_append_left _ hp))
    | succ k' =>
      have hk' : k' < bs.length := by
        simp only [List.length_cons] at hk
        omega
      refine ih (apply_batch api cfg res b) hpwrest ?_ ?_ k' hk' m hm
      · intro p hp
        rw [apply_batch_length]
        exact hbound p (List.mem_append_right _ hp)
      · intro p hp
        rw [apply_batch_getD_of_not_mem api cfg res b p.1 (fun q hq =>
          Nat.ne_of_lt (hcross q hq p hp))]
        exact hinit p (List.mem_append_right _ hp)

/-- C3: if one batch fails all of its retries, then the items of that
batch resolve to empty vectors, every other batch's items are unaffected —
equal to that batch's own API result, and non-empty when the API succeeds
with non-empty vectors — and no exception reaches the caller
(`generate_embeddings_batch` returns a plain list of one vector per
input). -/
theorem batch_failure_isolated (api : EmbedApi) (cfg : EmbCfg)
    (texts : List String) (hmb : 0 < cfg.max_batch_size)
    (hmr : 0 < cfg.max_retries) (j : Nat)
    (hj : j < (text_batches cfg texts).length)
    (hfail : ∀ a, a < cfg.max_retries →
      ∃ e, api (((text_batches cfg texts).get ⟨j, hj⟩).map (fun p => p.2)) a =
        .error e)
    (hok : ∀ (k : Nat) (hk : k < (text_batches cfg texts).length), k ≠ j →
      ∃ vs, api (((text_batches cfg texts).get ⟨k, hk⟩).map (fun p => p.2)) 0 =
          .ok vs ∧
        vs.length = ((text_batches cfg texts).get ⟨k, hk⟩).length ∧
        ∀ v ∈ vs, v ≠ []) :
    (generate_embeddings_batch api cfg texts).length = texts.length ∧
    (∀ p ∈ (text_batches cfg texts).get ⟨j, hj⟩,
      (generate_embeddings_batch api cfg texts).getD p.1 [] = []) ∧
    (∀ (k : Nat) (hk : k < (text_batches cfg texts).length), k ≠ j →
      ∀ (m : Nat) (hm : m < ((text_batches cfg texts).get ⟨k, hk⟩).length),
        (generate_embeddings_batch api cfg texts).getD
            (((text_batches cfg texts).get ⟨k, hk⟩).get ⟨m, hm⟩).1 [] =
          (generate_batch_with_retry api cfg
            (((text_batches cfg texts).get ⟨k, hk⟩).map (fun p => p.2))).getD
            m [] ∧
        (generate_embeddings_batch api cfg texts).getD
            (((text_batches cfg texts).get ⟨k, hk⟩).get ⟨m, hm⟩).1 [] ≠ []) := by
  have hfne : filtered_texts texts ≠ [] := by
    intro h
    rw [text_batches, h] at hj
    have hempty : chunksOf cfg.max_batch_size ([] : List (Nat × String)) = [] := by
      unfold chunksOf
      split <;> rfl
    rw [hempty] at hj
    simp at hj
  have htne : texts ≠ [] := by
    intro h
    subst h
    exact hfne rfl
  have hflat : (text_batches cfg texts).flatten = filtered_texts texts :=
    chunksOf_flatten cfg.max_batch_size hmb (filtered_texts texts)
  have hgen : generate_embeddings_batch api cfg texts =
      (text_batches cfg texts).foldl (apply_batch api cfg)
        (texts.map (fun _ => [])) := by
    rw [generate_embeddings_batch, if_neg htne, if_neg hfne]
  have hmaster := foldl_batches_getD api cfg (text_batches cfg texts)
    (texts.map (fun _ => []))
    (by rw [hflat]; exact filtered_texts_pairwise texts)
    (by
      rw [hflat]
      intro p hp
      rw [List.length_map]
      exact (mem_filtered_texts hp).1)
    (by
      rw [hflat]
      intro p hp
      exact map_const_nil_getD texts p.1)
  refine ⟨generate_embeddings_batch_length api cfg texts, ?_, ?_⟩
  · intro p hp
    obtain ⟨⟨m, hm⟩, hpm⟩ := List.mem_iff_get.mp hp
    rw [hgen, ← hpm, hmaster j hj m hm,
      generate_batch_with_retry_all_fail api cfg _ hfail,
      List.length_map, replicate_nil_getD]
  · intro k hk hkj m hm
    obtain ⟨vs, hvok, hvlen, hvne⟩ := hok k hk hkj
    have hretry : generate_batch_with_retry api cfg
        (((text_batches cfg texts).get ⟨k, hk⟩).map (fun p => p.2)) = vs :=
      generate_batch_with_retry_first_ok api cfg _ vs hmr hvok
    constructor
    · rw [hgen]
      exact hmaster k hk m hm
    · rw [hgen, hmaster k hk m hm, hretry]
      have hmvs : m < vs.length := by rw [hvlen]; exact hm
      rw [List.getD_eq_getElem?_getD, List.getElem?_eq_getElem hmvs]
      exact hvne _ (List.getElem_mem hmvs)

/-- Witness for `batch_failure_isolated`: batch size 1, one retry, inputs
`["a", "b"]`; the API fails permanently on the batch `["b"]` and succeeds
on `["a"]`.  Index 1 resolves to the empty vector while index 0 gets a
non-empty vector. -/
theorem batch_failure_isolated_witness :
    (generate_embeddings_batch
        (fun ts _ => if ts = ["b"] then .error "x"
          else .ok (ts.map (fun _ => [(1.0 : Float)])))
        ⟨1, 1⟩ ["a", "b"]).getD 1 [] = [] ∧
    (generate_embeddings_batch
        (fun ts _ => if ts = ["b"] then .error "x"
          else .ok (ts.map (fun _ => [(1.0 : Float)])))
        ⟨1, 1⟩ ["a", "b"]).getD 0 [] ≠ [] := by
  have h := batch_failure_isolated
    (fun ts _ => if ts = ["b"] then .error "x"
      else .ok (ts.map (fun _ => [(1.0 : Float)])))
    ⟨1, 1⟩ ["a", "b"] (by decide) (by decide) 1 (by decide)
    (fun a _ => ⟨"x", by rfl⟩)
    (fun k hk hkj => by
      have hlen : (text_batches (⟨1, 1⟩ : EmbCfg) ["a", "b"]).length = 2 := by
        decide
      have hk0 : k = 0 := by
        rw [hlen] at hk
        omega
      subst hk0
      refine ⟨[[(1.0 : Float)]], by rfl, by rfl, ?_⟩
      intro v hv
      simp only [List.mem_singleton] at hv
      subst hv
      exact List.cons_ne_nil _ _)
  exact ⟨h.2.1 (1, "b") (by decide), (h.2.2 0 (by decide) (by decide) 0
    (by decide)).2⟩
